import Mathlib

/-!
Verification of the `tl` HTML parser (`src/parser.rs`).

Shallow embedding: bytes are `Nat` (ASCII codes), the input is a `List Nat`,
and the parser state is the cursor index into that fixed list, threaded
explicitly.  Every function below is translated from `src/parser.rs`; the
byte-cursor operations (the `Stream` type of `stream.rs`) and `util::is_ident`
are not part of the repository's source files, so they are modelled from the
spec (section 4.1 "Byte Cursor" and section 4.2) as noted on each definition.

Recursive loops are embedded either as structural recursion on the not yet
consumed suffix of the input (the `_off` helpers) or with an explicit fuel
argument (`PRes.fuel` marks fuel exhaustion, which is proved unreachable for
the fuel the top-level entry point supplies), so that all definitions compute
by kernel reduction.

Byte values used: `<` = 60, `>` = 62, `/` = 47, `=` = 61, `"` = 34,
`'` = 39, space = 32, newline = 10, `-` = 45, `_` = 95.
-/

namespace TL

/-- Modelled from the spec: `util::is_ident` (util.rs is not among the source
files); section 4.2: identifier characters are alphanumeric, `-` and `_`. -/
def is_ident (c : Nat) : Bool :=
  decide ((48 ≤ c ∧ c ≤ 57) ∨ (65 ≤ c ∧ c ≤ 90) ∨ (97 ≤ c ∧ c ≤ 122) ∨ c = 45 ∨ c = 95)

/-- Modelled from the spec: `Stream::is_eof` (stream.rs is not among the source
files); section 4.1: `is_at_end()` reports exhaustion of the byte cursor. -/
def is_eof (data : List Nat) (i : Nat) : Bool :=
  decide (data.length ≤ i)

/-- Modelled from the spec: `Stream::current_cpy`; section 4.1: `current()`
peeks the byte at the cursor without consuming it, none at end-of-input. -/
def current_cpy (data : List Nat) (i : Nat) : Option Nat :=
  data[i]?

/-- Modelled from the spec: `Stream::current_unchecked`; the callers only use
it when the cursor is not at end-of-input, where it equals `current()`; the
model is total and returns 0 out of bounds. -/
def current_unchecked (data : List Nat) (i : Nat) : Nat :=
  data.getD i 0

/-- Modelled from the spec: `Stream::slice_unchecked(from, to)` returns the
zero-copy view of `[from, to)` of the input; all callers pass in-bounds
indices, and `List.take` clamps out of bounds. -/
def slice_unchecked (data : List Nat) (a b : Nat) : List Nat :=
  (data.take b).drop a

/-- Modelled from the spec: `Stream::slice(from, to)`; section 4.1: the view
of `[from, to)` clamped to the buffer bounds. -/
def stream_slice (data : List Nat) (a b : Nat) : List Nat :=
  slice_unchecked data a b

/-- Modelled from the spec: `Stream::expect_and_skip(c)` consumes and returns
the byte at the cursor when it equals `c`; otherwise (wrong byte or
end-of-input) it returns none and does not move. -/
def expect_and_skip (data : List Nat) (i : Nat) (expect : Nat) : Option Nat × Nat :=
  match data[i]? with
  | none => (none, i)
  | some c => if c = expect then (some c, i + 1) else (none, i)

/-- Modelled from the spec: `Stream::expect_oneof_and_skip(cs)` consumes and
returns the byte at the cursor when it is one of `cs`; otherwise it returns
none and does not move. -/
def expect_oneof_and_skip (data : List Nat) (i : Nat) (expect : List Nat) : Option Nat × Nat :=
  match data[i]? with
  | none => (none, i)
  | some c => if expect.contains c then (some c, i + 1) else (none, i)

/-- Modelled from the spec: `Stream::next` returns the byte at the cursor and
advances past it, none at end-of-input (section 4.1: `current()` plus
`advance()`). -/
def stream_next (data : List Nat) (i : Nat) : Option Nat × Nat :=
  match data[i]? with
  | none => (none, i)
  | some c => (some c, i + 1)

/-- Loop of `Parser::read_while` (parser.rs lines 80-90), phrased on the
suffix of the input that starts at the cursor: the number of leading bytes
that are in the terminator set. -/
def read_while_off (term : List Nat) : List Nat → Nat
  | [] => 0
  | c :: rest => if term.contains c then read_while_off term rest + 1 else 0

/-- `Parser::read_while`: advances the cursor while the current byte is in
`term`, stopping at the first byte outside it or at end-of-input. -/
def read_while (data term : List Nat) (i : Nat) : Nat :=
  i + read_while_off term (data.drop i)

/-- `Parser::skip_whitespaces` (parser.rs lines 58-60): `read_while` on
space and newline. -/
def skip_whitespaces (data : List Nat) (i : Nat) : Nat :=
  read_while data [32, 10] i

/-- Loop of `Parser::read_to` (parser.rs lines 62-78), phrased on the suffix
of the input at the cursor: the number of bytes before the first terminator
byte (all of them if no terminator occurs). -/
def read_to_off (term : List Nat) : List Nat → Nat
  | [] => 0
  | c :: rest => if term.contains c then 0 else read_to_off term rest + 1

/-- `Parser::read_to`: returns the slice from the cursor up to (excluding)
the first terminator byte, or up to end-of-input; the cursor is left on the
terminator (it is not consumed). -/
def read_to (data term : List Nat) (i : Nat) : List Nat × Nat :=
  (slice_unchecked data i (i + read_to_off term (data.drop i)),
   i + read_to_off term (data.drop i))

/-- Loop of `Parser::read_ident` (parser.rs lines 92-107), phrased on the
suffix at the cursor: the offset of the first non-identifier byte, or none
when every byte up to end-of-input is an identifier byte (the source returns
`None` in that case, after having advanced to end-of-input). -/
def read_ident_off : List Nat → Option Nat
  | [] => none
  | c :: rest =>
    if is_ident c then (read_ident_off rest).map (fun k => k + 1) else some 0

/-- `Parser::read_ident`: consumes identifier bytes; when a non-identifier
byte stops the run it returns the run (the stopping byte not consumed); when
the run extends to end-of-input it returns none with the cursor at
end-of-input. -/
def read_ident (data : List Nat) (i : Nat) : Option (List Nat) × Nat :=
  match read_ident_off (data.drop i) with
  | some off => (some (slice_unchecked data i (i + off)), i + off)
  | none => (none, i + (data.drop i).length)

/-- `Parser::parse_attribute` (parser.rs lines 109-122): name, optional
whitespace, `=`, optional whitespace, an opening quote, then the value up to
the matching quote (the closing quote is not consumed here; the caller skips
it).  Any missing piece returns none at the position where matching stopped. -/
def parse_attribute (data : List Nat) (i : Nat) : Option (List Nat × List Nat) × Nat :=
  match read_ident data i with
  | (none, j) => (none, j)
  | (some name, j) =>
    let j1 := skip_whitespaces data j
    match expect_and_skip data j1 61 with
    | (none, j2) => (none, j2)
    | (some _, j2) =>
      let j3 := skip_whitespaces data j2
      match expect_oneof_and_skip data j3 [34, 39] with
      | (none, j4) => (none, j4)
      | (some quote, j4) =>
        let r := read_to data [quote] j4
        (some (name, r.1), r.2)

/-- The attribute store of `HTMLTag` (`HashMap<&[u8], &[u8]>` in the source),
as the list of its key-value bindings. -/
abbrev AttrList := List (List Nat × List Nat)

/-- `HashMap::insert`: overwrite the binding when the key is already present,
otherwise add a binding for it. -/
def insertAttr (m : AttrList) (k v : List Nat) : AttrList :=
  if m.any (fun p => p.1 == k) then
    m.map (fun p => if p.1 == k then (k, v) else p)
  else m ++ [(k, v)]

/-- `HashMap::get`: the value bound to a key, if any. -/
def lookupAttr (m : AttrList) (k : List Nat) : Option (List Nat) :=
  (m.find? (fun p => p.1 == k)).map (fun p => p.2)

/-- The loop of `Parser::parse_attributes` (parser.rs lines 124-144): while
not at end-of-input, skip whitespace; stop (leaving the cursor in place) when
the current byte is `/` or `>` (`SELF_CLOSING`); otherwise try
`parse_attribute`, record the pair on success, and advance the cursor one
byte past wherever the attempt stopped.  The fuel only bounds the iteration
count; `data.length + 1` is always enough since every iteration advances. -/
def parse_attributes_go (data : List Nat) : Nat → AttrList → Nat → AttrList × Nat
  | 0, attr, i => (attr, i)
  | fuel + 1, attr, i =>
    if i < data.length then
      let i1 := skip_whitespaces data i
      let cur := current_unchecked data i1
      if cur = 47 ∨ cur = 62 then (attr, i1)
      else
        let r := parse_attribute data i1
        let attr' := match r.1 with
          | some kv => insertAttr attr kv.1 kv.2
          | none => attr
        parse_attributes_go data fuel attr' (r.2 + 1)
    else (attr, i)

/-- `Parser::parse_attributes`. -/
def parse_attributes (data : List Nat) (i : Nat) : AttrList × Nat :=
  parse_attributes_go data (data.length + 1) [] i

/-- The node tree of parser.rs lines 9-44: a `Node` is an `HTMLTag` (name,
attribute map, flags, children; `HTMLTag::new` sets flags to 0) or a raw
byte slice. -/
inductive Node where
  | Tag (name : List Nat) (attributes : AttrList) (flags : Nat) (children : List Node) : Node
  | Raw (content : List Nat) : Node
deriving Repr

/-- `HTMLTag::new` (parser.rs lines 27-36): flags are initialised to 0. -/
def HTMLTag.new (name : List Nat) (attr : AttrList) (children : List Node) : Node :=
  Node.Tag name attr 0 children

/-- Result of a fallible parsing step: `ok` and `fail` mirror `Some`/`None`
of the source; `fuel` marks fuel exhaustion of the embedding and is proved
unreachable for the fuel the entry point supplies. -/
inductive PRes (α : Type) where
  | ok (val : α) : PRes α
  | fail : PRes α
  | fuel : PRes α
deriving Repr

mutual

/-- `Parser::parse_tag` (parser.rs lines 146-202): optionally skip the
current byte (`<`), read the name, the attributes, detect `/>`
(self-closing returns at once with no children), otherwise require `>` and
collect children until the matching end tag. -/
def parse_tag (data : List Nat) (fuel i : Nat) (skip_current : Bool) : PRes (Node × Nat) :=
  match fuel with
  | 0 => .fuel
  | fuel + 1 =>
    let s0 := if skip_current then stream_next data i else (some 0, i)
    match s0.1 with
    | none => .fail
    | some _ =>
      match read_ident data s0.2 with
      | (none, _) => .fail
      | (some name, i2) =>
        let a := parse_attributes data i2
        let sl := expect_and_skip data a.2 47
        let is_self_closing : Bool := match sl.1 with
          | some c => c == 47
          | none => false
        let i5 := skip_whitespaces data sl.2
        if is_self_closing then
          match expect_and_skip data i5 62 with
          | (none, _) => .fail
          | (some _, i6) => .ok (HTMLTag.new name a.1 [], i6)
        else
          match expect_and_skip data i5 62 with
          | (none, _) => .fail
          | (some _, i6) =>
            match parse_tag_children data fuel i6 name with
            | .fuel => .fuel
            | .fail => .fail
            | .ok r => .ok (HTMLTag.new name a.1 r.1, r.2)

/-- The children loop of `Parser::parse_tag` (parser.rs lines 175-197): while
not at end-of-input, skip whitespace; on `</` read the end-tag name, fail on
a mismatch with the opening name, consume `>` and stop on a match; otherwise
parse one node and continue. -/
def parse_tag_children (data : List Nat) (fuel i : Nat) (name : List Nat) : PRes (List Node × Nat) :=
  match fuel with
  | 0 => .fuel
  | fuel + 1 =>
    if is_eof data i then .ok ([], i)
    else
      let i1 := skip_whitespaces data i
      if stream_slice data i1 (i1 + 2) = [60, 47] then
        match read_ident data (i1 + 2) with
        | (none, _) => .fail
        | (some ident, i2) =>
          if ident = name then
            match expect_and_skip data i2 62 with
            | (none, _) => .fail
            | (some _, i3) => .ok ([], i3)
          else .fail
      else
        match parse_single data fuel i1 with
        | .fuel => .fuel
        | .fail => .fail
        | .ok r =>
          match parse_tag_children data fuel r.2 name with
          | .fuel => .fuel
          | .fail => .fail
          | .ok r2 => .ok (r.1 :: r2.1, r2.2)

/-- `Parser::parse_single` (parser.rs lines 204-215): skip whitespace; at
end-of-input fail; on `<` parse a tag (its failure propagates); otherwise
produce a raw node of everything up to the next `<` or end-of-input. -/
def parse_single (data : List Nat) (fuel i : Nat) : PRes (Node × Nat) :=
  match fuel with
  | 0 => .fuel
  | fuel + 1 =>
    let i1 := skip_whitespaces data i
    match current_cpy data i1 with
    | none => .fail
    | some ch =>
      if ch = 60 then
        match parse_tag data fuel i1 true with
        | .fuel => .fuel
        | .fail => .fail
        | .ok r => .ok r
      else
        let r := read_to data [60] i1
        .ok (Node.Raw r.1, r.2)

end

/-- Fuel that is always sufficient for `parse_single` (proved below). -/
def inner_fuel (data : List Nat) : Nat :=
  3 * data.length + 3

/-- The loop of `Parser::parse` (parser.rs lines 217-226): push nodes while
`parse_single` produces one.  The fuel only bounds the iteration count;
`data.length + 1` is always enough since every produced node advances the
cursor. -/
def parse_loop (data : List Nat) : Nat → Nat → List Node → Option (List Node)
  | 0, _, _ => none
  | fuel + 1, i, acc =>
    match parse_single data (inner_fuel data) i with
    | .ok r => parse_loop data fuel r.2 (r.1 :: acc)
    | .fail => some acc.reverse
    | .fuel => none

/-- `Parser::parse`: the top-level entry point, starting at cursor 0 with an
empty tree.  `none` would mean fuel exhaustion; it is proved unreachable. -/
def parse (data : List Nat) : Option (List Node) :=
  parse_loop data (data.length + 1) 0 []

/-- The byte list of an ASCII string, for concrete inputs. -/
def strBytes (s : String) : List Nat :=
  s.data.map Char.toNat

/-- Rendering of an attribute map inside an open tag: ` name="value"` for
each binding, in order. -/
def attrs_html (attrs : AttrList) : List Nat :=
  (attrs.map (fun p => 32 :: p.1 ++ 61 :: 34 :: p.2 ++ [34])).flatten

mutual

/-- Modelled from the spec: `inner_html` "reconstructs the original textual
span a Tag/Raw node covers" (section 6; no implementation of it is among the
source files): a raw node is its text, a tag is its open tag with its
attributes, its children's reconstructions and its matching end tag. -/
def inner_html : Node → List Nat
  | Node.Raw s => s
  | Node.Tag name attrs _ children =>
    60 :: (name ++ attrs_html attrs) ++ 62 :: inner_html_list children ++ 60 :: 47 :: (name ++ [62])

/-- `inner_html` of a list of children, concatenated in order. -/
def inner_html_list : List Node → List Nat
  | [] => []
  | n :: rest => inner_html n ++ inner_html_list rest

end

/-! ### Basic facts about the cursor helpers -/

theorem read_to_off_cons_stop (term : List Nat) (c : Nat) (rest : List Nat)
    (h : c ∈ term) : read_to_off term (c :: rest) = 0 := by
  simp [read_to_off, h]

theorem read_to_off_cons_go (term : List Nat) (c : Nat) (rest : List Nat)
    (h : c ∉ term) :
    read_to_off term (c :: rest) = read_to_off term rest + 1 := by
  simp [read_to_off, h]

theorem read_while_off_cons_stop (term : List Nat) (c : Nat) (rest : List Nat)
    (h : c ∉ term) : read_while_off term (c :: rest) = 0 := by
  simp [read_while_off, h]

theorem read_while_off_cons_go (term : List Nat) (c : Nat) (rest : List Nat)
    (h : c ∈ term) :
    read_while_off term (c :: rest) = read_while_off term rest + 1 := by
  simp [read_while_off, h]

theorem read_ident_off_cons_true (c : Nat) (rest : List Nat) (hc : is_ident c = true) :
    read_ident_off (c :: rest) = (read_ident_off rest).map (fun k => k + 1) := by
  simp [read_ident_off, hc]

theorem read_ident_off_cons_false (c : Nat) (rest : List Nat) (hc : is_ident c = false) :
    read_ident_off (c :: rest) = some 0 := by
  simp [read_ident_off, hc]

theorem read_while_off_le (term l : List Nat) : read_while_off term l ≤ l.length := by
  induction l with
  | nil => simp [read_while_off]
  | cons c rest ih =>
    by_cases h : c ∈ term
    · rw [read_while_off_cons_go term c rest h]
      simpa using ih
    · rw [read_while_off_cons_stop term c rest h]
      simp

theorem read_to_off_le (term l : List Nat) : read_to_off term l ≤ l.length := by
  induction l with
  | nil => simp [read_to_off]
  | cons c rest ih =>
    by_cases h : c ∈ term
    · rw [read_to_off_cons_stop term c rest h]
      simp
    · rw [read_to_off_cons_go term c rest h]
      simpa using ih

theorem read_to_off_spec (term l : List Nat) :
    (∀ m, m < read_to_off term l → l.getD m 0 ∉ term) ∧
    (read_to_off term l < l.length → l.getD (read_to_off term l) 0 ∈ term) := by
  induction l with
  | nil => simp [read_to_off]
  | cons c rest ih =>
    by_cases h : c ∈ term
    · rw [read_to_off_cons_stop term c rest h]
      simpa using h
    · rw [read_to_off_cons_go term c rest h]
      constructor
      · intro m hm
        match m with
        | 0 => simpa using h
        | m + 1 =>
          have := ih.1 m (by omega)
          simpa using this
      · intro hlt
        have := ih.2 (by simpa using hlt)
        simpa using this

theorem read_to_off_append (term v : List Nat) (q : Nat) (rest : List Nat)
    (hv : ∀ c ∈ v, c ∉ term) (hq : q ∈ term) :
    read_to_off term (v ++ q :: rest) = v.length := by
  induction v with
  | nil =>
    simpa using read_to_off_cons_stop term q rest hq
  | cons c cs ih =>
    rw [List.cons_append, read_to_off_cons_go term c _ (hv c (by simp)),
      ih (fun x hx => hv x (by simp [hx]))]
    simp

theorem read_while_off_spec (term l : List Nat) :
    (∀ m, m < read_while_off term l → l.getD m 0 ∈ term) ∧
    (read_while_off term l < l.length → l.getD (read_while_off term l) 0 ∉ term) := by
  induction l with
  | nil => simp [read_while_off]
  | cons c rest ih =>
    by_cases h : c ∈ term
    · rw [read_while_off_cons_go term c rest h]
      constructor
      · intro m hm
        match m with
        | 0 => simpa using h
        | m + 1 =>
          have := ih.1 m (by omega)
          simpa using this
      · intro hlt
        have := ih.2 (by simpa using hlt)
        simpa using this
    · rw [read_while_off_cons_stop term c rest h]
      simpa using h

theorem read_ident_off_some_le (l : List Nat) (k : Nat) (h : read_ident_off l = some k) :
    k < l.length := by
  induction l generalizing k with
  | nil => simp [read_ident_off] at h
  | cons c rest ih =>
    by_cases hc : is_ident c = true
    · rw [read_ident_off_cons_true c rest hc, Option.map_eq_some'] at h
      obtain ⟨k', hk', rfl⟩ := h
      have := ih k' hk'
      simp
      omega
    · rw [read_ident_off_cons_false c rest (by simpa using hc), Option.some_inj] at h
      subst h
      simp

theorem read_ident_off_some_spec (l : List Nat) (k : Nat) (h : read_ident_off l = some k) :
    is_ident (l.getD k 0) = false ∧ ∀ m, m < k → is_ident (l.getD m 0) = true := by
  induction l generalizing k with
  | nil => simp [read_ident_off] at h
  | cons c rest ih =>
    by_cases hc : is_ident c = true
    · rw [read_ident_off_cons_true c rest hc, Option.map_eq_some'] at h
      obtain ⟨k', hk', rfl⟩ := h
      obtain ⟨h1, h2⟩ := ih k' hk'
      refine ⟨by simpa using h1, ?_⟩
      intro m hm
      match m with
      | 0 => simpa using hc
      | m + 1 =>
        have := h2 m (by omega)
        simpa using this
    · rw [read_ident_off_cons_false c rest (by simpa using hc), Option.some_inj] at h
      subst h
      refine ⟨by simpa using hc, by omega⟩

theorem read_ident_off_none_iff (l : List Nat) :
    read_ident_off l = none ↔ ∀ c ∈ l, is_ident c = true := by
  induction l with
  | nil => simp [read_ident_off]
  | cons c rest ih =>
    by_cases hc : is_ident c = true
    · rw [read_ident_off_cons_true c rest hc]
      simp only [Option.map_eq_none', ih]
      constructor
      · intro h x hx
        rcases List.mem_cons.mp hx with rfl | hx
        · exact hc
        · exact h x hx
      · intro h x hx
        exact h x (by simp [hx])
    · rw [read_ident_off_cons_false c rest (by simpa using hc)]
      constructor
      · intro h
        exact Option.noConfusion h
      · intro h
        exact absurd (h c (by simp)) hc

theorem read_ident_off_append (n : List Nat) (c : Nat) (rest : List Nat)
    (hn : ∀ x ∈ n, is_ident x = true) (hc : is_ident c = false) :
    read_ident_off (n ++ c :: rest) = some n.length := by
  induction n with
  | nil =>
    simpa using read_ident_off_cons_false c rest hc
  | cons x xs ih =>
    rw [List.cons_append, read_ident_off_cons_true x _ (hn x (by simp)),
      ih (fun y hy => hn y (by simp [hy]))]
    rfl

theorem slice_unchecked_eq (data : List Nat) (i k : Nat) :
    slice_unchecked data i (i + k) = (data.drop i).take k := by
  unfold slice_unchecked
  rw [List.drop_take, Nat.add_sub_cancel_left]

theorem drop_cons_next (data : List Nat) (i c : Nat) (rest : List Nat)
    (h : data.drop i = c :: rest) : data.drop (i + 1) = rest := by
  rw [← List.drop_drop, h]
  rfl

theorem getElem?_of_drop_cons (data : List Nat) (i c : Nat) (rest : List Nat)
    (h : data.drop i = c :: rest) : data[i]? = some c := by
  have := List.getElem?_drop data i 0
  rw [h] at this
  simpa using this.symm

/-! ### Cursor monotonicity and bounds -/

theorem read_while_bounds (data term : List Nat) (i : Nat) :
    i ≤ read_while data term i ∧ read_while data term i ≤ max i data.length := by
  have h := read_while_off_le term (data.drop i)
  rw [List.length_drop] at h
  unfold read_while
  omega

theorem skip_ws_bounds (data : List Nat) (i : Nat) :
    i ≤ skip_whitespaces data i ∧ skip_whitespaces data i ≤ max i data.length := by
  exact read_while_bounds data [32, 10] i

theorem read_to_bounds (data term : List Nat) (i : Nat) :
    i ≤ (read_to data term i).2 ∧ (read_to data term i).2 ≤ max i data.length := by
  have h := read_to_off_le term (data.drop i)
  rw [List.length_drop] at h
  unfold read_to
  constructor <;> simp <;> omega

theorem read_ident_bounds (data : List Nat) (i : Nat) :
    i ≤ (read_ident data i).2 ∧ (read_ident data i).2 ≤ max i data.length := by
  unfold read_ident
  cases h : read_ident_off (data.drop i) with
  | none => simp [List.length_drop]; omega
  | some k =>
    have := read_ident_off_some_le (data.drop i) k h
    rw [List.length_drop] at this
    simp
    omega

theorem expect_and_skip_bounds (data : List Nat) (i e : Nat) :
    i ≤ (expect_and_skip data i e).2 ∧
    (expect_and_skip data i e).2 ≤ max i data.length := by
  unfold expect_and_skip
  cases h : data[i]? with
  | none => simp
  | some c =>
    have hlt : i < data.length := by
      by_contra hge
      rw [List.getElem?_eq_none (by omega)] at h
      exact Option.noConfusion h
    by_cases hc : c = e <;> simp [hc] <;> omega

theorem expect_oneof_and_skip_bounds (data : List Nat) (i : Nat) (es : List Nat) :
    i ≤ (expect_oneof_and_skip data i es).2 ∧
    (expect_oneof_and_skip data i es).2 ≤ max i data.length := by
  unfold expect_oneof_and_skip
  cases h : data[i]? with
  | none => simp
  | some c =>
    have hlt : i < data.length := by
      by_contra hge
      rw [List.getElem?_eq_none (by omega)] at h
      exact Option.noConfusion h
    by_cases hc : c ∈ es <;> simp [hc] <;> omega

theorem stream_next_bounds (data : List Nat) (i : Nat) :
    i ≤ (stream_next data i).2 ∧ (stream_next data i).2 ≤ max i data.length := by
  unfold stream_next
  cases h : data[i]? with
  | none => simp
  | some c =>
    have hlt : i < data.length := by
      by_contra hge
      rw [List.getElem?_eq_none (by omega)] at h
      exact Option.noConfusion h
    simp
    omega

theorem parse_attribute_bounds (data : List Nat) (i : Nat) :
    i ≤ (parse_attribute data i).2 ∧ (parse_attribute data i).2 ≤ max i data.length := by
  unfold parse_attribute
  cases hri : read_ident data i with
  | mk o j =>
    have hj : i ≤ j ∧ j ≤ max i data.length := by
      have := read_ident_bounds data i
      rw [hri] at this
      exact this
    cases o with
    | none => simpa using hj
    | some name =>
      simp only
      have h1 := skip_ws_bounds data j
      set j1 := skip_whitespaces data j with hj1
      cases heq : expect_and_skip data j1 61 with
      | mk o2 j2 =>
        have hj2 : j1 ≤ j2 ∧ j2 ≤ max j1 data.length := by
          have := expect_and_skip_bounds data j1 61
          rw [heq] at this
          exact this
        cases o2 with
        | none => simp; omega
        | some e =>
          simp only
          have h3 := skip_ws_bounds data j2
          set j3 := skip_whitespaces data j2 with hj3
          cases heq2 : expect_oneof_and_skip data j3 [34, 39] with
          | mk o4 j4 =>
            have hj4 : j3 ≤ j4 ∧ j4 ≤ max j3 data.length := by
              have := expect_oneof_and_skip_bounds data j3 [34, 39]
              rw [heq2] at this
              exact this
            cases o4 with
            | none => simp; omega
            | some q =>
              simp only
              have h5 := read_to_bounds data [q] j4
              omega

theorem parse_attributes_go_bounds (data : List Nat) (fuel : Nat) :
    ∀ attr i, i ≤ (parse_attributes_go data fuel attr i).2 ∧
      (parse_attributes_go data fuel attr i).2 ≤ max i (data.length + 1) := by
  induction fuel with
  | zero => intro attr i; simp [parse_attributes_go]
  | succ fuel ih =>
    intro attr i
    unfold parse_attributes_go
    by_cases hlt : i < data.length
    · simp only [if_pos hlt]
      have h1 := skip_ws_bounds data i
      set i1 := skip_whitespaces data i with hi1
      by_cases hcur : current_unchecked data i1 = 47 ∨ current_unchecked data i1 = 62
      · simp only [if_pos hcur]
        constructor <;> omega
      · simp only [if_neg hcur]
        have h2 := parse_attribute_bounds data i1
        have h3 := ih (match (parse_attribute data i1).1 with
          | some kv => insertAttr attr kv.1 kv.2
          | none => attr) ((parse_attribute data i1).2 + 1)
        constructor <;> omega
    · simp only [if_neg hlt]
      simp

theorem parse_attributes_bounds (data : List Nat) (i : Nat) :
    i ≤ (parse_attributes data i).2 ∧
    (parse_attributes data i).2 ≤ max i (data.length + 1) := by
  exact parse_attributes_go_bounds data (data.length + 1) [] i

/-! ### Inversion lemmas for the cursor operations -/

theorem stream_next_some (data : List Nat) (i c j : Nat)
    (h : stream_next data i = (some c, j)) :
    j = i + 1 ∧ data[i]? = some c ∧ i < data.length := by
  unfold stream_next at h
  cases hg : data[i]? with
  | none => rw [hg] at h; exact absurd h (by simp)
  | some c' =>
    rw [hg] at h
    dsimp only at h
    simp only [Prod.mk.injEq, Option.some_inj] at h
    obtain ⟨h1, h2⟩ := h
    subst h1
    have : i < data.length := by
      by_contra hge
      rw [List.getElem?_eq_none (by omega)] at hg
      exact Option.noConfusion hg
    exact ⟨h2.symm, by simp [hg], this⟩

theorem expect_and_skip_some (data : List Nat) (i e c j : Nat)
    (h : expect_and_skip data i e = (some c, j)) :
    c = e ∧ j = i + 1 ∧ data[i]? = some e ∧ i < data.length := by
  unfold expect_and_skip at h
  cases hg : data[i]? with
  | none => rw [hg] at h; exact absurd h (by simp)
  | some c' =>
    rw [hg] at h
    dsimp only at h
    by_cases hc : c' = e
    · rw [if_pos hc] at h
      simp only [Prod.mk.injEq, Option.some_inj] at h
      obtain ⟨h1, h2⟩ := h
      subst h1
      subst hc
      have : i < data.length := by
        by_contra hge
        rw [List.getElem?_eq_none (by omega)] at hg
        exact Option.noConfusion hg
      exact ⟨rfl, h2.symm, by simp [hg], this⟩
    · rw [if_neg hc] at h
      exact absurd h (by simp)

theorem expect_and_skip_none (data : List Nat) (i e j : Nat)
    (h : expect_and_skip data i e = (none, j)) : j = i := by
  unfold expect_and_skip at h
  cases hg : data[i]? with
  | none =>
    rw [hg] at h
    dsimp only at h
    exact (congrArg Prod.snd h).symm
  | some c' =>
    rw [hg] at h
    dsimp only at h
    by_cases hc : c' = e
    · rw [if_pos hc] at h
      exact absurd (congrArg Prod.fst h) (by simp)
    · rw [if_neg hc] at h
      exact (congrArg Prod.snd h).symm

theorem expect_oneof_and_skip_some (data : List Nat) (i c j : Nat) (es : List Nat)
    (h : expect_oneof_and_skip data i es = (some c, j)) :
    j = i + 1 ∧ data[i]? = some c ∧ c ∈ es ∧ i < data.length := by
  unfold expect_oneof_and_skip at h
  cases hg : data[i]? with
  | none => rw [hg] at h; exact absurd h (by simp)
  | some c' =>
    rw [hg] at h
    dsimp only at h
    by_cases hc : es.contains c'
    · rw [if_pos hc] at h
      simp only [Prod.mk.injEq, Option.some_inj] at h
      obtain ⟨h1, h2⟩ := h
      subst h1
      have : i < data.length := by
        by_contra hge
        rw [List.getElem?_eq_none (by omega)] at hg
        exact Option.noConfusion hg
      exact ⟨h2.symm, by simp [hg], by simpa using hc, this⟩
    · rw [if_neg hc] at h
      exact absurd h (by simp)

theorem read_ident_some_lt (data : List Nat) (i : Nat) (s : List Nat) (j : Nat)
    (h : read_ident data i = (some s, j)) : i ≤ j ∧ j < data.length := by
  unfold read_ident at h
  cases ho : read_ident_off (data.drop i) with
  | none => rw [ho] at h; exact absurd (congrArg Prod.fst h) (by simp)
  | some off =>
    rw [ho] at h
    have hlt := read_ident_off_some_le (data.drop i) off ho
    rw [List.length_drop] at hlt
    have : i + off = j := congrArg Prod.snd h
    omega

/-! ### Progress and bounds of the node parsers -/

theorem parse_trio_bounds (data : List Nat) : ∀ fuel : Nat,
    (∀ i sk r, parse_tag data fuel i sk = PRes.ok r → i < r.2 ∧ r.2 ≤ data.length) ∧
    (∀ i name r, parse_tag_children data fuel i name = PRes.ok r →
      i ≤ r.2 ∧ r.2 ≤ max i data.length) ∧
    (∀ i r, parse_single data fuel i = PRes.ok r → i < r.2 ∧ r.2 ≤ data.length) := by
  intro fuel
  induction fuel with
  | zero =>
    refine ⟨?_, ?_, ?_⟩ <;> intro i
    · intro sk r h; exact absurd h (by simp [parse_tag])
    · intro name r h; exact absurd h (by simp [parse_tag_children])
    · intro r h; exact absurd h (by simp [parse_single])
  | succ fuel ih =>
    obtain ⟨ihtag, ihch, ihsingle⟩ := ih
    have tag : ∀ i sk r, parse_tag data (fuel + 1) i sk = PRes.ok r →
        i < r.2 ∧ r.2 ≤ data.length := by
      intro i sk r h
      rw [parse_tag] at h
      set s0 := if sk then stream_next data i else (some 0, i) with hs0
      have hs0b : i ≤ s0.2 ∧ s0.2 ≤ max i data.length := by
        cases sk with
        | true => simpa [hs0] using stream_next_bounds data i
        | false => simp [hs0]
      cases ho : s0.1 with
      | none => rw [ho] at h; exact absurd h (by simp)
      | some c =>
        rw [ho] at h
        simp only at h
        cases hri : read_ident data s0.2 with
        | mk oname i2 =>
          rw [hri] at h
          cases oname with
          | none => exact absurd h (by simp)
          | some name =>
            simp only at h
            have hri2 := read_ident_some_lt data s0.2 name i2 hri
            have hab := parse_attributes_bounds data i2
            set a := parse_attributes data i2 with ha
            have hesb := expect_and_skip_bounds data a.2 47
            set sl := expect_and_skip data a.2 47 with hsl
            have hwsb := skip_ws_bounds data sl.2
            set i5 := skip_whitespaces data sl.2 with hi5
            by_cases hsc : (match sl.1 with
              | some c => c == 47
              | none => false) = true
            · rw [if_pos hsc] at h
              cases hes : expect_and_skip data i5 62 with
              | mk o6 i6 =>
                rw [hes] at h
                cases o6 with
                | none => exact absurd h (by simp)
                | some c6 =>
                  simp only [PRes.ok.injEq] at h
                  obtain ⟨h6a, h6b, h6c⟩ := expect_and_skip_some data i5 62 c6 i6 hes
                  subst h
                  simp only
                  omega
            · rw [if_neg hsc] at h
              cases hes : expect_and_skip data i5 62 with
              | mk o6 i6 =>
                rw [hes] at h
                cases o6 with
                | none => exact absurd h (by simp)
                | some c6 =>
                  simp only at h
                  obtain ⟨h6a, h6b, h6c⟩ := expect_and_skip_some data i5 62 c6 i6 hes
                  cases hch : parse_tag_children data fuel i6 name with
                  | fuel => rw [hch] at h; exact absurd h (by simp)
                  | fail => rw [hch] at h; exact absurd h (by simp)
                  | ok r2 =>
                    rw [hch] at h
                    simp only [PRes.ok.injEq] at h
                    obtain ⟨hc1, hc2⟩ := ihch i6 name r2 hch
                    subst h
                    simp only
                    omega
    have ch : ∀ i name r, parse_tag_children data (fuel + 1) i name = PRes.ok r →
        i ≤ r.2 ∧ r.2 ≤ max i data.length := by
      intro i name r h
      rw [parse_tag_children] at h
      by_cases he : is_eof data i = true
      · rw [if_pos he] at h
        simp only [PRes.ok.injEq] at h
        subst h
        simp
      · rw [if_neg he] at h
        have hilt : i < data.length := by
          simp [is_eof] at he
          omega
        have hwsb := skip_ws_bounds data i
        set i1 := skip_whitespaces data i with hi1
        by_cases hsl : stream_slice data i1 (i1 + 2) = [60, 47]
        · rw [if_pos hsl] at h
          cases hri : read_ident data (i1 + 2) with
          | mk oid i2 =>
            rw [hri] at h
            cases oid with
            | none => exact absurd h (by simp)
            | some idn =>
              simp only at h
              by_cases hidn : idn = name
              · rw [if_pos hidn] at h
                cases hes : expect_and_skip data i2 62 with
                | mk o3 i3 =>
                  rw [hes] at h
                  cases o3 with
                  | none => exact absurd h (by simp)
                  | some c3 =>
                    simp only [PRes.ok.injEq] at h
                    obtain ⟨h3a, h3b, h3c⟩ := expect_and_skip_some data i2 62 c3 i3 hes
                    have hri2 := read_ident_some_lt data (i1 + 2) idn i2 hri
                    subst h
                    simp only
                    omega
              · rw [if_neg hidn] at h
                exact absurd h (by simp)
        · rw [if_neg hsl] at h
          cases hps : parse_single data fuel i1 with
          | fuel => rw [hps] at h; exact absurd h (by simp)
          | fail => rw [hps] at h; exact absurd h (by simp)
          | ok r1 =>
            rw [hps] at h
            simp only at h
            cases hch : parse_tag_children data fuel r1.2 name with
            | fuel => rw [hch] at h; exact absurd h (by simp)
            | fail => rw [hch] at h; exact absurd h (by simp)
            | ok r2 =>
              rw [hch] at h
              simp only [PRes.ok.injEq] at h
              obtain ⟨hp1, hp2⟩ := ihsingle i1 r1 hps
              obtain ⟨hc1, hc2⟩ := ihch r1.2 name r2 hch
              subst h
              simp only
              omega
    have single : ∀ i r, parse_single data (fuel + 1) i = PRes.ok r →
        i < r.2 ∧ r.2 ≤ data.length := by
      intro i r h
      rw [parse_single] at h
      have hwsb := skip_ws_bounds data i
      set i1 := skip_whitespaces data i with hi1
      cases hc : current_cpy data i1 with
      | none => rw [hc] at h; exact absurd h (by simp)
      | some c =>
        rw [hc] at h
        have hc1lt : i1 < data.length := by
          unfold current_cpy at hc
          by_contra hge
          rw [List.getElem?_eq_none (by omega)] at hc
          exact Option.noConfusion hc
        simp only at h
        by_cases h60 : c = 60
        · rw [if_pos h60] at h
          cases ht : parse_tag data fuel i1 true with
          | fuel => rw [ht] at h; exact absurd h (by simp)
          | fail => rw [ht] at h; exact absurd h (by simp)
          | ok r1 =>
            rw [ht] at h
            simp only [PRes.ok.injEq] at h
            obtain ⟨ht1, ht2⟩ := ihtag i1 true r1 ht
            subst h
            omega
        · rw [if_neg h60] at h
          simp only [PRes.ok.injEq] at h
          have hofflt : 1 ≤ read_to_off [60] (data.drop i1) := by
            cases hd : data.drop i1 with
            | nil =>
              have : (data.drop i1).length = 0 := by rw [hd]; rfl
              rw [List.length_drop] at this
              omega
            | cons c0 rest =>
              have hc0 : c0 = c := by
                have := getElem?_of_drop_cons data i1 c0 rest hd
                unfold current_cpy at hc
                rw [this] at hc
                exact (Option.some_inj.mp hc)
              subst hc0
              rw [read_to_off_cons_go [60] c0 rest (by simpa using h60)]
              omega
          have hoffle := read_to_off_le [60] (data.drop i1)
          rw [List.length_drop] at hoffle
          subst h
          simp only [read_to]
          omega
    exact ⟨tag, ch, single⟩

/-! ### Fuel sufficiency: the embedding's fuel never runs out -/

theorem parse_trio_fuel (data : List Nat) : ∀ fuel : Nat,
    (∀ i sk, 3 * (data.length - i) + 1 ≤ fuel → parse_tag data fuel i sk ≠ PRes.fuel) ∧
    (∀ i name, 3 * (data.length - i) + 3 ≤ fuel →
      parse_tag_children data fuel i name ≠ PRes.fuel) ∧
    (∀ i, 3 * (data.length - i) + 2 ≤ fuel → parse_single data fuel i ≠ PRes.fuel) := by
  intro fuel
  induction fuel with
  | zero =>
    refine ⟨?_, ?_, ?_⟩ <;> intro i <;> intros <;> omega
  | succ fuel ih =>
    obtain ⟨ihtag, ihch, ihsingle⟩ := ih
    have tag : ∀ i sk, 3 * (data.length - i) + 1 ≤ fuel + 1 →
        parse_tag data (fuel + 1) i sk ≠ PRes.fuel := by
      intro i sk hf h
      rw [parse_tag] at h
      set s0 := if sk then stream_next data i else (some 0, i) with hs0
      have hs0b : i ≤ s0.2 := by
        cases sk with
        | true => simpa [hs0] using (stream_next_bounds data i).1
        | false => simp [hs0]
      cases ho : s0.1 with
      | none => rw [ho] at h; exact absurd h (by simp)
      | some c =>
        rw [ho] at h
        simp only at h
        cases hri : read_ident data s0.2 with
        | mk oname i2 =>
          rw [hri] at h
          cases oname with
          | none => exact absurd h (by simp)
          | some name =>
            simp only at h
            have hri2 := read_ident_some_lt data s0.2 name i2 hri
            have hab := parse_attributes_bounds data i2
            set a := parse_attributes data i2 with ha
            have hesb := expect_and_skip_bounds data a.2 47
            set sl := expect_and_skip data a.2 47 with hsl
            have hwsb := skip_ws_bounds data sl.2
            set i5 := skip_whitespaces data sl.2 with hi5
            by_cases hsc : (match sl.1 with
              | some c => c == 47
              | none => false) = true
            · rw [if_pos hsc] at h
              cases hes : expect_and_skip data i5 62 with
              | mk o6 i6 =>
                rw [hes] at h
                cases o6 with
                | none => exact absurd h (by simp)
                | some c6 => exact absurd h (by simp)
            · rw [if_neg hsc] at h
              cases hes : expect_and_skip data i5 62 with
              | mk o6 i6 =>
                rw [hes] at h
                cases o6 with
                | none => exact absurd h (by simp)
                | some c6 =>
                  simp only at h
                  obtain ⟨h6a, h6b, h6c, h6d⟩ := expect_and_skip_some data i5 62 c6 i6 hes
                  have hch : parse_tag_children data fuel i6 name ≠ PRes.fuel := by
                    apply ihch
                    omega
                  cases hc2 : parse_tag_children data fuel i6 name with
                  | fuel => exact absurd hc2 hch
                  | fail => rw [hc2] at h; exact absurd h (by simp)
                  | ok r2 => rw [hc2] at h; exact absurd h (by simp)
    have ch : ∀ i name, 3 * (data.length - i) + 3 ≤ fuel + 1 →
        parse_tag_children data (fuel + 1) i name ≠ PRes.fuel := by
      intro i name hf h
      rw [parse_tag_children] at h
      by_cases he : is_eof data i = true
      · rw [if_pos he] at h
        exact absurd h (by simp)
      · rw [if_neg he] at h
        have hilt : i < data.length := by
          simp [is_eof] at he
          omega
        have hwsb := skip_ws_bounds data i
        set i1 := skip_whitespaces data i with hi1
        by_cases hsl : stream_slice data i1 (i1 + 2) = [60, 47]
        · rw [if_pos hsl] at h
          cases hri : read_ident data (i1 + 2) with
          | mk oid i2 =>
            rw [hri] at h
            cases oid with
            | none => exact absurd h (by simp)
            | some idn =>
              simp only at h
              by_cases hidn : idn = name
              · rw [if_pos hidn] at h
                cases hes : expect_and_skip data i2 62 with
                | mk o3 i3 =>
                  rw [hes] at h
                  cases o3 with
                  | none => exact absurd h (by simp)
                  | some c3 => exact absurd h (by simp)
              · rw [if_neg hidn] at h
                exact absurd h (by simp)
        · rw [if_neg hsl] at h
          have hps : parse_single data fuel i1 ≠ PRes.fuel := by
            apply ihsingle
            omega
          cases hps1 : parse_single data fuel i1 with
          | fuel => exact absurd hps1 hps
          | fail => rw [hps1] at h; exact absurd h (by simp)
          | ok r1 =>
            rw [hps1] at h
            simp only at h
            obtain ⟨hp1, hp2⟩ := (parse_trio_bounds data fuel).2.2 i1 r1 hps1
            have hch2 : parse_tag_children data fuel r1.2 name ≠ PRes.fuel := by
              apply ihch
              omega
            cases hc2 : parse_tag_children data fuel r1.2 name with
            | fuel => exact absurd hc2 hch2
            | fail => rw [hc2] at h; exact absurd h (by simp)
            | ok r2 => rw [hc2] at h; exact absurd h (by simp)
    have single : ∀ i, 3 * (data.length - i) + 2 ≤ fuel + 1 →
        parse_single data (fuel + 1) i ≠ PRes.fuel := by
      intro i hf h
      rw [parse_single] at h
      have hwsb := skip_ws_bounds data i
      set i1 := skip_whitespaces data i with hi1
      cases hc : current_cpy data i1 with
      | none => rw [hc] at h; exact absurd h (by simp)
      | some c =>
        rw [hc] at h
        simp only at h
        by_cases h60 : c = 60
        · rw [if_pos h60] at h
          have ht : parse_tag data fuel i1 true ≠ PRes.fuel := by
            apply ihtag
            omega
          cases ht1 : parse_tag data fuel i1 true with
          | fuel => exact absurd ht1 ht
          | fail => rw [ht1] at h; exact absurd h (by simp)
          | ok r1 => rw [ht1] at h; exact absurd h (by simp)
        · rw [if_neg h60] at h
          exact absurd h (by simp)
    exact ⟨tag, ch, single⟩

/-! ### The top-level loop terminates with the fuel it is given -/

theorem parse_single_inner_fuel (data : List Nat) (i : Nat) :
    parse_single data (inner_fuel data) i ≠ PRes.fuel := by
  apply (parse_trio_fuel data (inner_fuel data)).2.2
  unfold inner_fuel
  have : data.length - i ≤ data.length := by omega
  omega

theorem parse_loop_isSome (data : List Nat) : ∀ fuel i acc,
    data.length - i + 1 ≤ fuel → (parse_loop data fuel i acc).isSome = true := by
  intro fuel
  induction fuel with
  | zero => intro i acc h; omega
  | succ fuel ih =>
    intro i acc h
    rw [parse_loop]
    cases hps : parse_single data (inner_fuel data) i with
    | fuel => exact absurd hps (parse_single_inner_fuel data i)
    | fail => simp
    | ok r =>
      have hb := (parse_trio_bounds data (inner_fuel data)).2.2 i r hps
      apply ih
      omega

theorem parse_loop_stable (data : List Nat) : ∀ fuel fuel' i acc,
    (parse_loop data fuel i acc).isSome = true → fuel ≤ fuel' →
    parse_loop data fuel' i acc = parse_loop data fuel i acc := by
  intro fuel
  induction fuel with
  | zero =>
    intro fuel' i acc h
    rw [parse_loop] at h
    exact absurd h (by simp)
  | succ fuel ih =>
    intro fuel' i acc h hle
    match fuel', hle with
    | fuel' + 1, hle =>
      rw [parse_loop, parse_loop]
      rw [parse_loop] at h
      cases hps : parse_single data (inner_fuel data) i
      case fuel => rw [hps] at h
      case fail => rfl
      case ok r =>
        rw [hps] at h
        exact ih fuel' r.2 (r.1 :: acc) h (by omega)

/-! ### More transfer lemmas -/

theorem getD_drop (data : List Nat) (i m : Nat) :
    (data.drop i).getD m 0 = data.getD (i + m) 0 := by
  rw [List.getD_eq_getElem?_getD, List.getD_eq_getElem?_getD, List.getElem?_drop]

theorem current_lt_of_some (data : List Nat) (i c : Nat) (h : data[i]? = some c) :
    i < data.length := by
  by_contra hge
  rw [List.getElem?_eq_none (by omega)] at h
  exact Option.noConfusion h

theorem drop_cons_of_current (data : List Nat) (i c : Nat) (h : data[i]? = some c) :
    data.drop i = c :: data.drop (i + 1) := by
  have hlt := current_lt_of_some data i c h
  have := List.drop_eq_getElem_cons hlt
  rw [List.getElem?_eq_getElem hlt] at h
  rw [this, Option.some_inj.mp h]

/-- A successful tag parse always produces a `Node.Tag` (never a raw node). -/
theorem parse_tag_ok_shape (data : List Nat) (fuel i : Nat) (sk : Bool) (r : Node × Nat)
    (h : parse_tag data fuel i sk = PRes.ok r) :
    ∃ name attrs children j, r = (Node.Tag name attrs 0 children, j) := by
  cases fuel with
  | zero => exact absurd h (by simp [parse_tag])
  | succ fuel =>
    rw [parse_tag] at h
    set s0 := if sk then stream_next data i else (some 0, i) with hs0
    cases ho : s0.1 with
    | none => rw [ho] at h; exact absurd h (by simp)
    | some c =>
      rw [ho] at h
      simp only at h
      cases hri : read_ident data s0.2 with
      | mk oname i2 =>
        rw [hri] at h
        cases oname with
        | none => exact absurd h (by simp)
        | some name =>
          simp only at h
          set a := parse_attributes data i2 with ha
          set sl := expect_and_skip data a.2 47 with hsl
          set i5 := skip_whitespaces data sl.2 with hi5
          by_cases hsc : (match sl.1 with
            | some c => c == 47
            | none => false) = true
          · rw [if_pos hsc] at h
            cases hes : expect_and_skip data i5 62 with
            | mk o6 i6 =>
              rw [hes] at h
              cases o6 with
              | none => exact absurd h (by simp)
              | some c6 =>
                simp only [PRes.ok.injEq] at h
                exact ⟨name, a.1, [], i6, h.symm⟩
          · rw [if_neg hsc] at h
            cases hes : expect_and_skip data i5 62 with
            | mk o6 i6 =>
              rw [hes] at h
              cases o6 with
              | none => exact absurd h (by simp)
              | some c6 =>
                simp only at h
                cases hch : parse_tag_children data fuel i6 name with
                | fuel => rw [hch] at h; exact absurd h (by simp)
                | fail => rw [hch] at h; exact absurd h (by simp)
                | ok r2 =>
                  rw [hch] at h
                  simp only [PRes.ok.injEq] at h
                  exact ⟨name, a.1, r2.1, r2.2, h.symm⟩

/-! ### The claims -/

/-- C1: for every finite byte sequence, the top-level `parse` terminates and
returns a tree of nodes: in the embedding, the fuel supplied by `parse` is
proved sufficient, so the result is always `some` tree, for every input. -/
theorem parse_total (data : List Nat) : ∃ tree : List Node, parse data = some tree := by
  have h := parse_loop_isSome data (data.length + 1) 0 [] (by omega)
  unfold parse
  exact Option.isSome_iff_exists.mp h

/-- C9: whenever `parse_single` produces a node, the cursor strictly
advances (and stays within the input); consequently the top-level loop needs
at most `input length + 1` iterations: giving it any more fuel than
`parse` does changes nothing. -/
theorem parse_single_progress :
    (∀ (data : List Nat) (fuel i : Nat) (r : Node × Nat),
      parse_single data fuel i = PRes.ok r → i < r.2 ∧ r.2 ≤ data.length) ∧
    (∀ (data : List Nat) (extra : Nat),
      parse_loop data (data.length + 1 + extra) 0 [] = parse data) := by
  constructor
  · intro data fuel i r h
    exact (parse_trio_bounds data fuel).2.2 i r h
  · intro data extra
    unfold parse
    exact parse_loop_stable data (data.length + 1) (data.length + 1 + extra) 0 []
      (parse_loop_isSome data (data.length + 1) 0 [] (by omega)) (by omega)

/-- C4 (counterexample): at position 0 of the input `"a"` an identifier
character is available, yet `read_ident` returns none (the run reached
end-of-input), contradicting the claim that none is returned only at true
end-of-input with zero characters consumed. -/
theorem read_ident_none_after_consuming :
    (read_ident [97] 0).1 = none ∧ is_ident 97 = true ∧ 0 < ([97] : List Nat).length := by
  refine ⟨rfl, rfl, by decide⟩

/-- C4 (amended): `read_ident` consumes the maximal run of identifier
characters from the cursor.  It returns none exactly when every byte from
the cursor to end-of-input is an identifier character (in particular at true
end-of-input) — even when identifier characters were consumed; when a
non-identifier byte terminates the run it returns the run (possibly empty)
without consuming the terminator. -/
theorem read_ident_spec (data : List Nat) (i : Nat) :
    ((read_ident data i).1 = none ↔
      ∀ k, i ≤ k → k < data.length → is_ident (data.getD k 0) = true) ∧
    (∀ s j, read_ident data i = (some s, j) →
      i ≤ j ∧ j < data.length ∧ is_ident (data.getD j 0) = false ∧
      (∀ m, i ≤ m → m < j → is_ident (data.getD m 0) = true) ∧
      s = slice_unchecked data i j) := by
  constructor
  · unfold read_ident
    cases ho : read_ident_off (data.drop i) with
    | none =>
      simp only [true_iff]
      intro k hik hk
      rw [read_ident_off_none_iff] at ho
      have hmem : data.getD k 0 ∈ data.drop i := by
        have hlt : k - i < (data.drop i).length := by
          rw [List.length_drop]; omega
        have : (data.drop i).getD (k - i) 0 = data.getD k 0 := by
          rw [getD_drop]
          congr 1
          omega
        rw [← this, List.getD_eq_getElem?_getD, List.getElem?_eq_getElem hlt]
        exact List.getElem_mem hlt
      exact ho _ hmem
    | some off =>
      simp only
      constructor
      · intro hcon
        exact absurd hcon (by simp)
      · intro hall
        have hlt := read_ident_off_some_le (data.drop i) off ho
        rw [List.length_drop] at hlt
        have hspec := read_ident_off_some_spec (data.drop i) off ho
        have hident := hall (i + off) (by omega) (by omega)
        rw [← getD_drop] at hident
        rw [hspec.1] at hident
        exact Bool.noConfusion hident
  · intro s j h
    unfold read_ident at h
    cases ho : read_ident_off (data.drop i) with
    | none =>
      rw [ho] at h
      exact absurd (congrArg Prod.fst h) (by simp)
    | some off =>
      rw [ho] at h
      simp only [Prod.mk.injEq, Option.some_inj] at h
      obtain ⟨hs, hj⟩ := h
      have hlt := read_ident_off_some_le (data.drop i) off ho
      rw [List.length_drop] at hlt
      have hspec := read_ident_off_some_spec (data.drop i) off ho
      subst hj
      refine ⟨by omega, by omega, ?_, ?_, hs.symm⟩
      · rw [← getD_drop]
        exact hspec.1
      · intro m him hm
        have := hspec.2 (m - i) (by omega)
        rw [getD_drop] at this
        have heq : i + (m - i) = m := by omega
        rw [heq] at this
        exact this

/-- C5: `parse_single` first skips whitespace; if the byte at the resulting
cursor is `<` it delegates to tag parsing (whose outcome it propagates),
otherwise it emits a raw node; a raw node always holds exactly the bytes
from the whitespace-skipped cursor up to (excluding) the next `<` or
end-of-input, and its span is never empty. -/
theorem parse_single_spec (data : List Nat) (fuel i : Nat) :
    (parse_single data (fuel + 1) i =
      match current_cpy data (skip_whitespaces data i) with
      | none => PRes.fail
      | some ch =>
        if ch = 60 then
          match parse_tag data fuel (skip_whitespaces data i) true with
          | PRes.fuel => PRes.fuel
          | PRes.fail => PRes.fail
          | PRes.ok r => PRes.ok r
        else
          PRes.ok (Node.Raw (read_to data [60] (skip_whitespaces data i)).1,
            (read_to data [60] (skip_whitespaces data i)).2)) ∧
    (∀ s j, parse_single data (fuel + 1) i = PRes.ok (Node.Raw s, j) →
      s ≠ [] ∧ s = slice_unchecked data (skip_whitespaces data i) j ∧
      skip_whitespaces data i < j ∧ j ≤ data.length ∧
      (∀ m, skip_whitespaces data i ≤ m → m < j → data.getD m 0 ≠ 60) ∧
      (j = data.length ∨ data.getD j 0 = 60)) := by
  constructor
  · rfl
  · intro s j h
    rw [parse_single] at h
    have hwsb := skip_ws_bounds data i
    set i1 := skip_whitespaces data i with hi1
    cases hc : current_cpy data i1 with
    | none => rw [hc] at h; exact absurd h (by simp)
    | some c =>
      rw [hc] at h
      simp only at h
      have hc1lt : i1 < data.length := current_lt_of_some data i1 c hc
      by_cases h60 : c = 60
      · rw [if_pos h60] at h
        cases ht : parse_tag data fuel i1 true with
        | fuel => rw [ht] at h; exact absurd h (by simp)
        | fail => rw [ht] at h; exact absurd h (by simp)
        | ok r1 =>
          rw [ht] at h
          simp only [PRes.ok.injEq] at h
          obtain ⟨name, attrs, children, j2, hshape⟩ := parse_tag_ok_shape data fuel i1 true r1 ht
          rw [hshape] at h
          exact absurd (congrArg Prod.fst h) (by simp)
      · rw [if_neg h60] at h
        simp only [PRes.ok.injEq, Prod.mk.injEq, Node.Raw.injEq] at h
        obtain ⟨hs, hj⟩ := h
        have hdrop : data.drop i1 = c :: data.drop (i1 + 1) := drop_cons_of_current data i1 c hc
        have hoff1 : 1 ≤ read_to_off [60] (data.drop i1) := by
          rw [hdrop, read_to_off_cons_go [60] c _ (by simpa using h60)]
          omega
        have hoffle := read_to_off_le [60] (data.drop i1)
        rw [List.length_drop] at hoffle
        have hspec := read_to_off_spec [60] (data.drop i1)
        unfold read_to at hs hj
        set off := read_to_off [60] (data.drop i1) with hoffdef
        refine ⟨?_, ?_, by omega, by omega, ?_, ?_⟩
        · rw [← hs, slice_unchecked_eq, hdrop]
          intro hcon
          have : off = 0 := by
            by_contra hne
            rw [List.take_eq_nil_iff] at hcon
            rcases hcon with hcon | hcon
            · exact hne hcon
            · exact List.noConfusion hcon
          omega
        · rw [← hs, ← hj]
        · intro m hm1 hm2
          have := hspec.1 (m - i1) (by omega)
          rw [getD_drop] at this
          have heq : i1 + (m - i1) = m := by omega
          rw [heq] at this
          simpa using this
        · by_cases hoffl : off < (data.drop i1).length
          · right
            have := hspec.2 hoffl
            rw [getD_drop] at this
            have heq : i1 + off = j := hj
            rw [heq] at this
            simpa using this
          · left
            rw [List.length_drop] at hoffl
            omega

/-- C6: `parse_attribute` succeeds exactly when the cursor matches
name, optional whitespace, `=`, optional whitespace and an opening quote
(`"` or `'`); the returned value then runs from past the quote to the
matching quote.  When the `=` or the quote is missing it returns none — and
the enclosing attribute loop then continues one byte further with the map
unchanged (the next iteration re-checks the `/`/`>` markers) instead of
aborting the parse. -/
theorem parse_attribute_soft_spec (data : List Nat) (i : Nat) :
    ((parse_attribute data i).1.isSome = true ↔
      (∃ s, (read_ident data i).1 = some s) ∧
      data[skip_whitespaces data (read_ident data i).2]? = some 61 ∧
      (data[skip_whitespaces data (skip_whitespaces data (read_ident data i).2 + 1)]? = some 34 ∨
       data[skip_whitespaces data (skip_whitespaces data (read_ident data i).2 + 1)]? = some 39)) ∧
    (∀ name v j, parse_attribute data i = (some (name, v), j) →
      (read_ident data i).1 = some name ∧
      ∃ q, (q = 34 ∨ q = 39) ∧
        data[skip_whitespaces data (skip_whitespaces data (read_ident data i).2 + 1)]? = some q ∧
        (v, j) = read_to data [q]
          (skip_whitespaces data (skip_whitespaces data (read_ident data i).2 + 1) + 1)) ∧
    (∀ fuel attr, i < data.length →
      ¬(current_unchecked data (skip_whitespaces data i) = 47 ∨
        current_unchecked data (skip_whitespaces data i) = 62) →
      (parse_attribute data (skip_whitespaces data i)).1 = none →
      parse_attributes_go data (fuel + 1) attr i =
        parse_attributes_go data fuel attr
          ((parse_attribute data (skip_whitespaces data i)).2 + 1)) := by
  refine ⟨?_, ?_, ?_⟩
  · unfold parse_attribute
    cases hri : read_ident data i with
    | mk oname jj =>
      cases oname with
      | none => simp
      | some name =>
        simp only
        set j1 := skip_whitespaces data jj with hj1
        cases hes : expect_and_skip data j1 61 with
        | mk o2 j2 =>
          cases o2 with
          | none =>
            simp only
            have hj2 : j2 = j1 := expect_and_skip_none data j1 61 j2 hes
            constructor
            · intro hcon
              exact absurd hcon (by simp)
            · rintro ⟨-, h61, -⟩
              unfold expect_and_skip at hes
              rw [h61] at hes
              simp at hes
          | some c2 =>
            simp only
            obtain ⟨hc2, hj2, h61, hlt⟩ := expect_and_skip_some data j1 61 c2 j2 hes
            subst hj2
            set j3 := skip_whitespaces data (j1 + 1) with hj3
            cases heo : expect_oneof_and_skip data j3 [34, 39] with
            | mk o4 j4 =>
              cases o4 with
              | none =>
                simp only
                constructor
                · intro hcon
                  exact absurd hcon (by simp)
                · rintro ⟨-, -, hq⟩
                  unfold expect_oneof_and_skip at heo
                  rcases hq with hq | hq <;>
                    rw [hq] at heo <;>
                    simp at heo
              | some q =>
                simp only
                obtain ⟨hj4, hq, hqmem, hlt4⟩ := expect_oneof_and_skip_some data j3 q j4 [34, 39] heo
                simp only [List.mem_cons, List.not_mem_nil, or_false] at hqmem
                constructor
                · intro
                  refine ⟨⟨name, rfl⟩, h61, ?_⟩
                  rcases hqmem with rfl | rfl
                  · left; exact hq
                  · right; exact hq
                · intro
                  simp
  · intro name v j h
    unfold parse_attribute at h
    cases hri : read_ident data i with
    | mk oname jj =>
      rw [hri] at h
      cases oname with
      | none => exact absurd (congrArg Prod.fst h) (by simp)
      | some name0 =>
        simp only at h
        set j1 := skip_whitespaces data jj with hj1
        cases hes : expect_and_skip data j1 61 with
        | mk o2 j2 =>
          rw [hes] at h
          cases o2 with
          | none => exact absurd (congrArg Prod.fst h) (by simp)
          | some c2 =>
            simp only at h
            obtain ⟨hc2, hj2, h61, hlt⟩ := expect_and_skip_some data j1 61 c2 j2 hes
            subst hj2
            set j3 := skip_whitespaces data (j1 + 1) with hj3
            cases heo : expect_oneof_and_skip data j3 [34, 39] with
            | mk o4 j4 =>
              rw [heo] at h
              cases o4 with
              | none => exact absurd (congrArg Prod.fst h) (by simp)
              | some q =>
                dsimp only at h
                rw [Prod.mk.injEq] at h
                obtain ⟨h1, hj⟩ := h
                rw [Option.some_inj, Prod.mk.injEq] at h1
                obtain ⟨hn, hv⟩ := h1
                obtain ⟨hj4, hq, hqmem, hlt4⟩ :=
                  expect_oneof_and_skip_some data j3 q j4 [34, 39] heo
                simp only [List.mem_cons, List.not_mem_nil, or_false] at hqmem
                subst hj4
                refine ⟨by simpa using hn, q, ?_, hq, ?_⟩
                · rcases hqmem with rfl | rfl
                  · left; rfl
                  · right; rfl
                · rw [← hv, ← hj]
  · intro fuel attr hlt hcur hfail
    rw [parse_attributes_go]
    rw [if_pos hlt]
    simp only
    rw [if_neg hcur]
    cases hpa : (parse_attribute data (skip_whitespaces data i)).1 with
    | none => rfl
    | some kv => rw [hpa] at hfail; exact Option.noConfusion hfail

/-- C3 (the code at the failing inputs): with an unquoted attribute value
the attribute loop consumes the closing `>` while scanning for an
attribute, the tag parse then fails and the element is lost — the whole
parse returns an empty tree; the same happens for a valueless attribute.
This contradicts the repository's own tests `unquoted` and
`valueless_attribute` (tests.rs lines 386-416), which require both inputs
to parse and the element to remain findable. -/
theorem permissive_attribute_regressions_fail :
    parse (strBytes "<a id=u54423>Hello World</a>") = some [] ∧
    parse (strBytes "<iframe allowfullscreen></iframe>") = some [] :=
  ⟨rfl, rfl⟩

/-- C7 (counterexample): parsing `"abc <p>test</p> def"` yields three nodes
whose third is the raw node `"def"` — not `" def"`: the leading space is
consumed by the whitespace skip of `parse_single`, so no node of the result
is a raw `" def"` node as the claim states. -/
theorem parse_example_trailing_raw :
    parse (strBytes "abc <p>test</p> def") =
      some [Node.Raw (strBytes "abc "),
        Node.Tag (strBytes "p") [] 0 [Node.Raw (strBytes "test")],
        Node.Raw (strBytes "def")] ∧
    (Node.Raw (strBytes " def") ∈ [Node.Raw (strBytes "abc "),
        Node.Tag (strBytes "p") [] 0 [Node.Raw (strBytes "test")],
        Node.Raw (strBytes "def")] → False) := by
  refine ⟨rfl, ?_⟩
  intro h
  rcases List.mem_cons.mp h with h | h
  · injection h with h1
    exact absurd h1 (by decide)
  rcases List.mem_cons.mp h with h | h
  · exact Node.noConfusion h
  rcases List.mem_cons.mp h with h | h
  · injection h with h1
    exact absurd h1 (by decide)
  · exact absurd h (by simp)

/-- C7 (amended): parsing `"abc <p>test</p> def"` produces exactly three
top-level nodes in order: raw `"abc "`, the tag `p` with the single raw
child `"test"`, and raw `"def"` (the space before `def` is consumed by the
whitespace skip); the reconstructed markup of the tag equals
`"<p>test</p>"`. -/
theorem parse_example_nodes :
    parse (strBytes "abc <p>test</p> def") =
      some [Node.Raw (strBytes "abc "),
        Node.Tag (strBytes "p") [] 0 [Node.Raw (strBytes "test")],
        Node.Raw (strBytes "def")] ∧
    inner_html (Node.Tag (strBytes "p") [] 0 [Node.Raw (strBytes "test")]) =
      strBytes "<p>test</p>" :=
  ⟨rfl, rfl⟩

/-- C2 (counterexample): on `"<p>x</q>"` the mismatched end tag makes the
tag parse fail and `parse_single` propagates the failure; the top-level
parse returns the empty tree — the malformed span is dropped, it is not
re-interpreted as a raw text node as the claim states. -/
theorem tag_mismatch_drops_span :
    parse (strBytes "<p>x</q>") = some [] ∧
    parse_single (strBytes "<p>x</q>") (inner_fuel (strBytes "<p>x</q>")) 0 = PRes.fail :=
  ⟨rfl, rfl⟩

/-- C8: a tag whose attribute section ends in the self-closing marker `/>`
(with optional whitespace between `/` and `>`) is returned immediately: its
children list is empty and the cursor is left right after the `>`, so the
following bytes are not attached to it as children; this holds for every
fuel, as this path performs no recursion. -/
theorem parse_tag_self_closing (data : List Nat) (fuel i c : Nat) (name : List Nat)
    (attrs : AttrList) (i2 i3 i5 : Nat)
    (hc : data[i]? = some c)
    (hn : read_ident data (i + 1) = (some name, i2))
    (ha : parse_attributes data i2 = (attrs, i3))
    (hs : data[i3]? = some 47)
    (hw : skip_whitespaces data (i3 + 1) = i5)
    (hg : data[i5]? = some 62) :
    parse_tag data (fuel + 1) i true = PRes.ok (Node.Tag name attrs 0 [], i5 + 1) := by
  have hsn : stream_next data i = (some c, i + 1) := by
    unfold stream_next
    rw [hc]
  have hes : expect_and_skip data i3 47 = (some 47, i3 + 1) := by
    unfold expect_and_skip
    rw [hs]
    simp
  have hes2 : expect_and_skip data i5 62 = (some 62, i5 + 1) := by
    unfold expect_and_skip
    rw [hg]
    simp
  rw [parse_tag]
  simp only [if_true, hsn, hn, ha, hes, hw, hes2, HTMLTag.new]
  simp

/-- C8 (witness): `<br/>xy` parses as a childless `br` tag ending right
after the `>` at index 5, with fuel 1. -/
theorem parse_tag_self_closing_witness :
    parse_tag (strBytes "<br/>xy") 1 0 true =
      PRes.ok (Node.Tag (strBytes "br") [] 0 [], 5) :=
  parse_tag_self_closing (strBytes "<br/>xy") 0 0 60 (strBytes "br") [] 3 3 4
    rfl rfl rfl rfl rfl rfl

/-! ### Symbolic single-step lemmas, for running the parser on inputs with
list-valued parameters -/

theorem skip_ws_noop (data : List Nat) (i c : Nat) (rest : List Nat)
    (hd : data.drop i = c :: rest) (h32 : c ≠ 32) (h10 : c ≠ 10) :
    skip_whitespaces data i = i := by
  unfold skip_whitespaces read_while
  rw [hd, read_while_off_cons_stop _ _ _ (by simp [h32, h10])]
  omega

theorem expect_and_skip_miss (data : List Nat) (i c e : Nat)
    (h : data[i]? = some c) (hne : c ≠ e) :
    expect_and_skip data i e = (none, i) := by
  unfold expect_and_skip
  rw [h]
  simp [hne]

theorem expect_and_skip_hit (data : List Nat) (i e : Nat)
    (h : data[i]? = some e) :
    expect_and_skip data i e = (some e, i + 1) := by
  unfold expect_and_skip
  rw [h]
  simp

theorem expect_oneof_and_skip_hit (data : List Nat) (i q : Nat) (es : List Nat)
    (h : data[i]? = some q) (hq : q ∈ es) :
    expect_oneof_and_skip data i es = (some q, i + 1) := by
  unfold expect_oneof_and_skip
  rw [h]
  simp [hq]

theorem current_unchecked_of_drop (data : List Nat) (i c : Nat) (rest : List Nat)
    (hd : data.drop i = c :: rest) : current_unchecked data i = c := by
  unfold current_unchecked
  rw [List.getD_eq_getElem?_getD, getElem?_of_drop_cons data i c rest hd]
  rfl

theorem is_eof_false (data : List Nat) (i : Nat) (h : i < data.length) :
    is_eof data i = false := by
  simp [is_eof]
  omega

theorem read_ident_at (data : List Nat) (i : Nat) (n : List Nat) (c : Nat) (rest : List Nat)
    (hd : data.drop i = n ++ c :: rest)
    (hn : ∀ x ∈ n, is_ident x = true) (hc : is_ident c = false) :
    read_ident data i = (some n, i + n.length) := by
  unfold read_ident
  rw [hd, read_ident_off_append n c rest hn hc]
  dsimp only
  rw [slice_unchecked_eq, hd, List.take_left]

theorem read_to_at (data : List Nat) (i : Nat) (v : List Nat) (q : Nat) (rest : List Nat)
    (hd : data.drop i = v ++ q :: rest) (hv : ∀ c ∈ v, c ≠ q) :
    read_to data [q] i = (v, i + v.length) := by
  unfold read_to
  rw [hd, read_to_off_append [q] v q rest (by intro c hc; simpa using hv c hc) (by simp)]
  rw [slice_unchecked_eq, hd, List.take_left]

theorem drop_add_of_drop (data : List Nat) (i k : Nat) (l : List Nat)
    (hd : data.drop i = l) : data.drop (i + k) = l.drop k := by
  rw [← List.drop_drop, hd]

theorem parse_attribute_at (data : List Nat) (i : Nat) (n : List Nat) (q : Nat)
    (v rest : List Nat)
    (hd : data.drop i = n ++ (61 :: (q :: (v ++ (q :: rest)))))
    (hn : ∀ x ∈ n, is_ident x = true)
    (hq : q = 34 ∨ q = 39)
    (hv : ∀ c ∈ v, c ≠ q) :
    parse_attribute data i = (some (n, v), i + n.length + 2 + v.length) := by
  have hq32 : q ≠ 32 := by rcases hq with rfl | rfl <;> omega
  have hq10 : q ≠ 10 := by rcases hq with rfl | rfl <;> omega
  have hd1 : data.drop (i + n.length) = 61 :: (q :: (v ++ (q :: rest))) := by
    rw [drop_add_of_drop data i n.length _ hd]
    exact List.drop_left n _
  have hd2 : data.drop (i + n.length + 1) = q :: (v ++ (q :: rest)) :=
    drop_cons_next data (i + n.length) 61 _ hd1
  have hd3 : data.drop (i + n.length + 2) = v ++ (q :: rest) :=
    drop_cons_next data (i + n.length + 1) q _ hd2
  have hri : read_ident data i = (some n, i + n.length) :=
    read_ident_at data i n 61 _ hd hn (by decide)
  unfold parse_attribute
  rw [hri]
  dsimp only
  rw [skip_ws_noop data (i + n.length) 61 _ hd1 (by omega) (by omega)]
  rw [expect_and_skip_hit data (i + n.length) 61 (getElem?_of_drop_cons data _ 61 _ hd1)]
  dsimp only
  rw [skip_ws_noop data (i + n.length + 1) q _ hd2 hq32 hq10]
  rw [expect_oneof_and_skip_hit data (i + n.length + 1) q [34, 39]
    (getElem?_of_drop_cons data _ q _ hd2) (by rcases hq with rfl | rfl <;> simp)]
  dsimp only
  rw [read_to_at data (i + n.length + 2) v q rest hd3 hv]

theorem parse_attributes_break (data : List Nat) (fuel : Nat) (attr : AttrList) (i : Nat)
    (hlt : i < data.length)
    (hcur : current_unchecked data (skip_whitespaces data i) = 47 ∨
      current_unchecked data (skip_whitespaces data i) = 62) :
    parse_attributes_go data (fuel + 1) attr i = (attr, skip_whitespaces data i) := by
  rw [parse_attributes_go, if_pos hlt]
  dsimp only
  rw [if_pos hcur]

theorem parse_attributes_go_step (data : List Nat) (fuel : Nat) (attr : AttrList) (i : Nat)
    (hlt : i < data.length)
    (hcur : ¬(current_unchecked data (skip_whitespaces data i) = 47 ∨
      current_unchecked data (skip_whitespaces data i) = 62)) :
    parse_attributes_go data (fuel + 1) attr i =
      parse_attributes_go data fuel
        (match (parse_attribute data (skip_whitespaces data i)).1 with
          | some kv => insertAttr attr kv.1 kv.2
          | none => attr)
        ((parse_attribute data (skip_whitespaces data i)).2 + 1) := by
  rw [parse_attributes_go, if_pos hlt]
  dsimp only
  rw [if_neg hcur]

theorem parse_single_at_eof (data : List Nat) (fuel i : Nat)
    (h : data.length ≤ i) : parse_single data (fuel + 1) i = PRes.fail := by
  rw [parse_single]
  have hd : data.drop i = [] := List.drop_eq_nil_of_le h
  have hws : skip_whitespaces data i = i := by
    unfold skip_whitespaces read_while
    rw [hd]
    rfl
  rw [hws]
  have : current_cpy data i = none := by
    unfold current_cpy
    exact List.getElem?_eq_none h
  rw [this]

/-- C2 (amended): for every pair of identifier names with `n2 ≠ n1`, parsing
the tag `<n1></n2>` (opening name `n1`, closing name `n2`, case-sensitive
byte comparison) fails — `parse_tag` returns the soft failure for every
fuel — and the caller propagates the failure, so the top-level parse stops
there: the whole parse still returns a tree (`some []`), but the malformed
span is dropped rather than re-interpreted as a raw text node. -/
theorem tag_mismatch_soft_failure (n1 n2 : List Nat)
    (h1 : ∀ c ∈ n1, is_ident c = true) (h2 : ∀ c ∈ n2, is_ident c = true)
    (hne : n2 ≠ n1) :
    (∀ fuel, parse_tag (60 :: (n1 ++ (62 :: (60 :: (47 :: (n2 ++ [62]))))))
      (fuel + 2) 0 true = PRes.fail) ∧
    parse (60 :: (n1 ++ (62 :: (60 :: (47 :: (n2 ++ [62])))))) = some [] := by
  set L := 60 :: (n1 ++ (62 :: (60 :: (47 :: (n2 ++ [62]))))) with hL
  have hlen : L.length = n1.length + n2.length + 5 := by
    rw [hL]
    simp
    omega
  have hd0 : L.drop 0 = 60 :: (n1 ++ (62 :: (60 :: (47 :: (n2 ++ [62]))))) := by
    rw [hL]
    exact List.drop_zero _
  have hd1 : L.drop 1 = n1 ++ (62 :: (60 :: (47 :: (n2 ++ [62])))) :=
    drop_cons_next L 0 60 _ hd0
  have hdp1 : L.drop (1 + n1.length) = 62 :: (60 :: (47 :: (n2 ++ [62]))) := by
    rw [drop_add_of_drop L 1 n1.length _ hd1]
    exact List.drop_left n1 _
  have hdp2 : L.drop (1 + n1.length + 1) = 60 :: (47 :: (n2 ++ [62])) :=
    drop_cons_next L _ 62 _ hdp1
  have htag : ∀ fuel, parse_tag L (fuel + 2) 0 true = PRes.fail := by
    intro fuel
    have hsn : stream_next L 0 = (some 60, 1) := by
      unfold stream_next
      rw [getElem?_of_drop_cons L 0 60 _ hd0]
    have hri : read_ident L 1 = (some n1, 1 + n1.length) :=
      read_ident_at L 1 n1 62 _ hd1 h1 (by decide)
    have hws1 : skip_whitespaces L (1 + n1.length) = 1 + n1.length :=
      skip_ws_noop L _ 62 _ hdp1 (by omega) (by omega)
    have hattr : parse_attributes L (1 + n1.length) = ([], 1 + n1.length) := by
      unfold parse_attributes
      rw [parse_attributes_break L L.length [] _ (by omega) (by
        rw [hws1]
        right
        exact current_unchecked_of_drop L _ 62 _ hdp1)]
      rw [hws1]
    have hm47 : expect_and_skip L (1 + n1.length) 47 = (none, 1 + n1.length) :=
      expect_and_skip_miss L _ 62 47 (getElem?_of_drop_cons L _ 62 _ hdp1) (by omega)
    have hh62 : expect_and_skip L (1 + n1.length) 62 = (some 62, 1 + n1.length + 1) :=
      expect_and_skip_hit L _ 62 (getElem?_of_drop_cons L _ 62 _ hdp1)
    have hch : parse_tag_children L (fuel + 1) (1 + n1.length + 1) n1 = PRes.fail := by
      have h21 : fuel + 1 = fuel + 0 + 1 := rfl
      rw [h21, parse_tag_children]
      rw [is_eof_false L _ (by omega)]
      simp only [Bool.false_eq_true, if_false]
      rw [skip_ws_noop L _ 60 _ hdp2 (by omega) (by omega)]
      have hslice : stream_slice L (1 + n1.length + 1) ((1 + n1.length + 1) + 2) = [60, 47] := by
        unfold stream_slice
        rw [slice_unchecked_eq, hdp2]
        rfl
      rw [if_pos hslice]
      have hd4 : L.drop (1 + n1.length + 1 + 2) = n2 ++ [62] := by
        rw [drop_add_of_drop L (1 + n1.length + 1) 2 _ hdp2]
        rfl
      have hri2 : read_ident L (1 + n1.length + 1 + 2) =
          (some n2, 1 + n1.length + 1 + 2 + n2.length) :=
        read_ident_at L _ n2 62 [] hd4 h2 (by decide)
      rw [hri2]
      dsimp only
      rw [if_neg hne]
    have h22 : fuel + 2 = fuel + 1 + 1 := rfl
    rw [h22, parse_tag]
    simp only [if_true, hsn]
    try dsimp only
    rw [hri]
    try dsimp only
    rw [hattr]
    try dsimp only
    rw [hm47]
    try dsimp only
    rw [hws1, hh62]
    simp only [Bool.false_eq_true, if_false]
    rw [hch]
  have hsingle : ∀ fuel, parse_single L (fuel + 3) 0 = PRes.fail := by
    intro fuel
    have h33 : fuel + 3 = fuel + 2 + 1 := rfl
    rw [h33, parse_single]
    rw [skip_ws_noop L 0 60 _ hd0 (by omega) (by omega)]
    have hcur : current_cpy L 0 = some 60 := getElem?_of_drop_cons L 0 60 _ hd0
    rw [hcur]
    dsimp only
    rw [htag fuel]
    simp
  refine ⟨htag, ?_⟩
  unfold parse
  rw [parse_loop]
  have hone : parse_single L (inner_fuel L) 0 = PRes.fail := by
    have h3 : inner_fuel L = 3 * L.length + 3 := rfl
    rw [h3]
    exact hsingle (3 * L.length)
  rw [hone]
  rfl

/-- C2 (witness): `<p></q>` (opening name `p` = 112, closing name `q` = 113):
the tag parse fails for every fuel and the whole parse returns `some []`. -/
theorem tag_mismatch_soft_failure_witness :
    (∀ fuel, parse_tag (60 :: ([112] ++ (62 :: (60 :: (47 :: ([113] ++ [62]))))))
      (fuel + 2) 0 true = PRes.fail) ∧
    parse (60 :: ([112] ++ (62 :: (60 :: (47 :: ([113] ++ [62])))))) = some [] :=
  tag_mismatch_soft_failure [112] [113] (by decide) (by decide) (by decide)

/-- C10: when a tag carries two successfully parsed attributes with the same
name (here `<a k="v1" k="v2"></a>` for arbitrary quote-free values), the
attribute map of the parsed tag binds the name to the later (last) value —
the earlier one is overwritten — the tag parse still succeeds, and looking
the name up yields the later value. -/
theorem duplicate_attribute_last_wins (v1 v2 : List Nat)
    (hv1 : ∀ c ∈ v1, c ≠ 34) (hv2 : ∀ c ∈ v2, c ≠ 34) :
    parse (60 :: (97 :: (32 :: (107 :: (61 :: (34 :: (v1 ++ (34 :: (32 :: (107 :: (61 :: (34 :: (v2 ++ (34 :: (62 :: (60 :: (47 :: (97 :: [62])))))))))))))))))) =
      some [Node.Tag [97] [([107], v2)] 0 []] ∧
    lookupAttr [([107], v2)] [107] = some v2 := by
  set T2 : List Nat := 34 :: (62 :: (60 :: (47 :: (97 :: [62])))) with hT2
  set T1 : List Nat := 34 :: (32 :: (107 :: (61 :: (34 :: (v2 ++ T2))))) with hT1
  set L : List Nat := 60 :: (97 :: (32 :: (107 :: (61 :: (34 :: (v1 ++ T1)))))) with hL
  have hlen : L.length = v1.length + v2.length + 17 := by
    rw [hL, hT1, hT2]
    simp
    omega
  have hd0 : L.drop 0 = 60 :: (97 :: (32 :: (107 :: (61 :: (34 :: (v1 ++ T1)))))) := by
    rw [hL]
    exact List.drop_zero _
  have hd1 : L.drop 1 = 97 :: (32 :: (107 :: (61 :: (34 :: (v1 ++ T1))))) := by
    simpa using drop_cons_next L 0 60 _ hd0
  have hd2 : L.drop 2 = 32 :: (107 :: (61 :: (34 :: (v1 ++ T1)))) := by
    simpa using drop_cons_next L 1 97 _ hd1
  have hd3 : L.drop 3 = 107 :: (61 :: (34 :: (v1 ++ T1))) := by
    simpa using drop_cons_next L 2 32 _ hd2
  have hd6 : L.drop 6 = v1 ++ T1 := by
    have h4 : L.drop 4 = 61 :: (34 :: (v1 ++ T1)) := by
      simpa using drop_cons_next L 3 107 _ hd3
    have h5 : L.drop 5 = 34 :: (v1 ++ T1) := by
      simpa using drop_cons_next L 4 61 _ h4
    simpa using drop_cons_next L 5 34 _ h5
  have hdq1 : L.drop (v1.length + 6) = 34 :: (32 :: (107 :: (61 :: (34 :: (v2 ++ T2))))) := by
    have := drop_add_of_drop L 6 v1.length _ hd6
    rw [List.drop_left] at this
    rw [show v1.length + 6 = 6 + v1.length from by omega]
    rw [this, hT1]
  have hd7 : L.drop (v1.length + 6 + 1) = 32 :: (107 :: (61 :: (34 :: (v2 ++ T2)))) :=
    drop_cons_next L (v1.length + 6) 34 _ hdq1
  have hd8 : L.drop (v1.length + 8) = 107 :: (61 :: (34 :: (v2 ++ T2))) := by
    have := drop_cons_next L (v1.length + 6 + 1) 32 _ hd7
    rw [show v1.length + 6 + 1 + 1 = v1.length + 8 from by omega] at this
    exact this
  have hd11 : L.drop (v1.length + 11) = v2 ++ T2 := by
    have h9 : L.drop (v1.length + 8 + 1) = 61 :: (34 :: (v2 ++ T2)) :=
      drop_cons_next L (v1.length + 8) 107 _ hd8
    have h10 : L.drop (v1.length + 8 + 1 + 1) = 34 :: (v2 ++ T2) :=
      drop_cons_next L (v1.length + 8 + 1) 61 _ h9
    have h11 := drop_cons_next L (v1.length + 8 + 1 + 1) 34 _ h10
    rw [show v1.length + 8 + 1 + 1 + 1 = v1.length + 11 from by omega] at h11
    exact h11
  have hd11v : L.drop (v1.length + v2.length + 11) = T2 := by
    have := drop_add_of_drop L (v1.length + 11) v2.length _ hd11
    rw [List.drop_left] at this
    rw [show v1.length + v2.length + 11 = v1.length + 11 + v2.length from by omega]
    exact this
  have hd12 : L.drop (v1.length + v2.length + 11 + 1) = 62 :: (60 :: (47 :: (97 :: [62]))) := by
    have h0 : L.drop (v1.length + v2.length + 11) = 34 :: (62 :: (60 :: (47 :: (97 :: [62])))) := by
      rw [hd11v, hT2]
    exact drop_cons_next L (v1.length + v2.length + 11) 34 _ h0
  have hd13 : L.drop (v1.length + v2.length + 11 + 1 + 1) = 60 :: (47 :: (97 :: [62])) :=
    drop_cons_next L (v1.length + v2.length + 11 + 1) 62 _ hd12
  have hws1 : skip_whitespaces L 2 = 3 := by
    unfold skip_whitespaces read_while
    rw [hd2, read_while_off_cons_go _ _ _ (by simp), read_while_off_cons_stop _ _ _ (by simp)]
  have hws2 : skip_whitespaces L (v1.length + 6 + 1) = v1.length + 8 := by
    unfold skip_whitespaces read_while
    rw [hd7, read_while_off_cons_go _ _ _ (by simp), read_while_off_cons_stop _ _ _ (by simp)]
  have hpa1 : parse_attribute L 3 = (some ([107], v1), v1.length + 6) := by
    have hd3' : L.drop 3 = [107] ++ (61 :: (34 :: (v1 ++ (34 :: (32 :: (107 :: (61 :: (34 :: (v2 ++ T2))))))))) := by
      rw [hd3, hT1]
      rfl
    have := parse_attribute_at L 3 [107] 34 v1 _ hd3' (by decide) (by left; rfl) hv1
    rw [show 3 + ([107] : List Nat).length + 2 + v1.length = v1.length + 6 from by
      simp only [List.length_cons, List.length_nil]
      omega] at this
    exact this
  have hpa2 : parse_attribute L (v1.length + 8) = (some ([107], v2), v1.length + v2.length + 11) := by
    have hd8' : L.drop (v1.length + 8) = [107] ++ (61 :: (34 :: (v2 ++ (34 :: (62 :: (60 :: (47 :: (97 :: [62])))))))) := by
      rw [hd8, hT2]
      rfl
    have := parse_attribute_at L (v1.length + 8) [107] 34 v2 _ hd8' (by decide) (by left; rfl) hv2
    rw [show v1.length + 8 + ([107] : List Nat).length + 2 + v2.length = v1.length + v2.length + 11 from by
      simp only [List.length_cons, List.length_nil]
      omega] at this
    exact this
  have ins1 : insertAttr [] [107] v1 = [([107], v1)] := by
    simp [insertAttr]
  have ins2 : insertAttr [([107], v1)] [107] v2 = [([107], v2)] := by
    simp [insertAttr]
  have hattr : parse_attributes L 2 = ([([107], v2)], v1.length + v2.length + 11 + 1) := by
    unfold parse_attributes
    rw [parse_attributes_go_step L L.length [] 2 (by omega) (by
      rw [hws1, current_unchecked_of_drop L 3 107 _ hd3]
      decide)]
    rw [hws1, hpa1]
    dsimp only
    rw [ins1]
    rw [show L.length = v1.length + v2.length + 16 + 1 from by omega]
    rw [parse_attributes_go_step L (v1.length + v2.length + 16) _ _ (by omega) (by
      rw [hws2, current_unchecked_of_drop L (v1.length + 8) 107 _ hd8]
      decide)]
    rw [hws2, hpa2]
    dsimp only
    rw [ins2]
    rw [show v1.length + v2.length + 16 = v1.length + v2.length + 15 + 1 from by omega]
    rw [parse_attributes_break L (v1.length + v2.length + 15) _ _ (by omega) (by
      rw [skip_ws_noop L _ 62 _ hd12 (by omega) (by omega),
        current_unchecked_of_drop L _ 62 _ hd12]
      right
      rfl)]
    rw [skip_ws_noop L _ 62 _ hd12 (by omega) (by omega)]
  have hch : ∀ fuel, parse_tag_children L (fuel + 1) (v1.length + v2.length + 11 + 1 + 1) [97] =
      PRes.ok ([], v1.length + v2.length + 16 + 1) := by
    intro fuel
    rw [parse_tag_children]
    rw [is_eof_false L _ (by omega)]
    simp only [Bool.false_eq_true, if_false]
    rw [skip_ws_noop L _ 60 _ hd13 (by omega) (by omega)]
    have hslice : stream_slice L (v1.length + v2.length + 11 + 1 + 1)
        ((v1.length + v2.length + 11 + 1 + 1) + 2) = [60, 47] := by
      unfold stream_slice
      rw [slice_unchecked_eq, hd13]
      rfl
    rw [if_pos hslice]
    have hd15 : L.drop (v1.length + v2.length + 11 + 1 + 1 + 2) = 97 :: [62] := by
      have := drop_add_of_drop L (v1.length + v2.length + 11 + 1 + 1) 2 _ hd13
      simpa using this
    have hri2 : read_ident L (v1.length + v2.length + 11 + 1 + 1 + 2) =
        (some [97], v1.length + v2.length + 16) := by
      have := read_ident_at L (v1.length + v2.length + 11 + 1 + 1 + 2) [97] 62 [] hd15
        (by decide) (by decide)
      rw [show v1.length + v2.length + 11 + 1 + 1 + 2 + ([97] : List Nat).length =
          v1.length + v2.length + 16 from by simp] at this
      exact this
    rw [hri2]
    dsimp only
    rw [if_pos rfl]
    have hd16 : L.drop (v1.length + v2.length + 16) = [62] := by
      have := drop_add_of_drop L (v1.length + v2.length + 11) 5 _ hd11v
      rw [hT2] at this
      rw [show v1.length + v2.length + 16 = v1.length + v2.length + 11 + 5 from by omega]
      simpa using this
    rw [expect_and_skip_hit L (v1.length + v2.length + 16) 62
      (getElem?_of_drop_cons L _ 62 _ hd16)]
  have htag : ∀ fuel, parse_tag L (fuel + 2) 0 true =
      PRes.ok (Node.Tag [97] [([107], v2)] 0 [], v1.length + v2.length + 16 + 1) := by
    intro fuel
    have hsn : stream_next L 0 = (some 60, 1) := by
      unfold stream_next
      rw [getElem?_of_drop_cons L 0 60 _ hd0]
    have hri : read_ident L 1 = (some [97], 2) := by
      have h1' : L.drop 1 = [97] ++ (32 :: (107 :: (61 :: (34 :: (v1 ++ T1))))) := by
        rw [hd1]
        rfl
      simpa using read_ident_at L 1 [97] 32 _ h1' (by decide) (by decide)
    have hm47 : expect_and_skip L (v1.length + v2.length + 11 + 1) 47 =
        (none, v1.length + v2.length + 11 + 1) :=
      expect_and_skip_miss L _ 62 47 (getElem?_of_drop_cons L _ 62 _ hd12) (by omega)
    have hh62 : expect_and_skip L (v1.length + v2.length + 11 + 1) 62 =
        (some 62, v1.length + v2.length + 11 + 1 + 1) :=
      expect_and_skip_hit L _ 62 (getElem?_of_drop_cons L _ 62 _ hd12)
    have h22 : fuel + 2 = fuel + 1 + 1 := rfl
    rw [h22, parse_tag]
    simp only [if_true, hsn]
    try dsimp only
    rw [hri]
    try dsimp only
    rw [hattr]
    try dsimp only
    rw [hm47]
    try dsimp only
    rw [skip_ws_noop L _ 62 _ hd12 (by omega) (by omega), hh62]
    simp only [Bool.false_eq_true, if_false]
    rw [hch fuel]
    rfl
  have hsingle : ∀ fuel, parse_single L (fuel + 3) 0 =
      PRes.ok (Node.Tag [97] [([107], v2)] 0 [], v1.length + v2.length + 16 + 1) := by
    intro fuel
    have h33 : fuel + 3 = fuel + 2 + 1 := rfl
    rw [h33, parse_single]
    rw [skip_ws_noop L 0 60 _ hd0 (by omega) (by omega)]
    have hcur : current_cpy L 0 = some 60 := getElem?_of_drop_cons L 0 60 _ hd0
    rw [hcur]
    dsimp only
    rw [htag fuel]
    simp
  refine ⟨?_, by simp [lookupAttr]⟩
  unfold parse
  rw [parse_loop]
  have hone : parse_single L (inner_fuel L) 0 =
      PRes.ok (Node.Tag [97] [([107], v2)] 0 [], v1.length + v2.length + 16 + 1) := by
    have h3 : inner_fuel L = 3 * L.length + 3 := rfl
    rw [h3]
    exact hsingle (3 * L.length)
  rw [hone]
  dsimp only
  rw [show L.length = v1.length + v2.length + 16 + 1 from by omega]
  rw [parse_loop]
  have heof : parse_single L (inner_fuel L) (v1.length + v2.length + 16 + 1) = PRes.fail :=
    parse_single_at_eof L (3 * L.length + 2) (v1.length + v2.length + 16 + 1) (by omega)
  rw [heof]
  rfl

/-- C10 (witness): `<a k="1" k="2"></a>` parses to a single `a` tag whose
attribute map binds `k` to `"2"`, the later value. -/
theorem duplicate_attribute_last_wins_witness :
    parse (60 :: (97 :: (32 :: (107 :: (61 :: (34 :: ([49] ++ (34 :: (32 :: (107 :: (61 :: (34 :: ([50] ++ (34 :: (62 :: (60 :: (47 :: (97 :: [62])))))))))))))))))) =
      some [Node.Tag [97] [([107], [50])] 0 []] ∧
    lookupAttr [([107], [50])] [107] = some [50] :=
  duplicate_attribute_last_wins [49] [50] (by decide) (by decide)

end TL
